import Mathlib

/-!
Verification of the `slc`/`sled` spatial LED engine against its source.

The embedding models `f32` values by exact rationals (`ℚ`); where the source
can produce a non-finite float (NaN from `0.0 / 0.0`) the value is modelled by
`Option ℚ` with `none` standing for a non-finite result.  Rust panics (slice
index out of bounds, `Option::unwrap` on `None`) are modelled by `none`
results or an explicit `panicked` outcome, as noted on each definition.
All layouts considered concretely below are axis-aligned, so every square
root that appears is a square root of a perfect rational square and is
computed exactly.
-/

namespace Slc

/-- 2D vector with rational coordinates, standing in for `glam::Vec2`. -/
structure Vec2 where
  x : ℚ
  y : ℚ
deriving DecidableEq

instance : Sub Vec2 := ⟨fun a b => ⟨a.x - b.x, a.y - b.y⟩⟩

/-- Dot product of two vectors. -/
def dot (a b : Vec2) : ℚ := a.x * b.x + a.y * b.y

/-- Squared Euclidean distance between two points. -/
def dist2 (a b : Vec2) : ℚ := (a.x - b.x) ^ 2 + (a.y - b.y) ^ 2

/-- `glam::Vec2::lerp`: `a + (b - a) * t`, componentwise. -/
def Vec2.lerp (a b : Vec2) (t : ℚ) : Vec2 :=
  ⟨a.x + (b.x - a.x) * t, a.y + (b.y - a.y) * t⟩

/-- Fuel-driven binary search for the integer square root, maintaining
`lo * lo ≤ n < hi * hi`; structurally recursive so that kernel reduction can
evaluate it (unlike `Nat.sqrt`, whose well-founded recursion does not
unfold).  Exact on perfect squares. -/
def natSqrtGo (n : Nat) : Nat → Nat → Nat → Nat
  | 0, lo, _ => lo
  | fuel + 1, lo, hi =>
      if hi ≤ lo + 1 then lo
      else
        let mid := (lo + hi) / 2
        if mid * mid ≤ n then natSqrtGo n fuel mid hi else natSqrtGo n fuel lo mid

/-- Integer square root (exact on perfect squares). -/
def natSqrt (n : Nat) : Nat := natSqrtGo n (n + 2) 0 (n + 1)

/-- Rational square root, exact on perfect rational squares: a nonnegative
rational in lowest terms is a square exactly when its numerator and
denominator are perfect squares.  (Every length and discriminant evaluated
concretely in this file is a perfect rational square.) -/
def ratSqrt (q : ℚ) : ℚ := (natSqrt q.num.toNat : ℚ) / (natSqrt q.den : ℚ)

/-- Floor of a rational as `num / den` in integer (Euclidean) division; this
is `Int.floor` on `ℚ` (`Rat.floor_def`) in a form the kernel evaluates. -/
def ratFloor (q : ℚ) : ℤ := q.num / (q.den : ℤ)

/-- `ratFloor` agrees with the mathematical floor. -/
theorem ratFloor_eq_floor (q : ℚ) : ratFloor q = Int.floor q := by
  rw [ratFloor, Rat.floor_def]

/-- Rounding half away from zero on the nonnegative rationals, matching
`f32::round` on every value this development applies it to. -/
def ratRound (q : ℚ) : ℤ := ratFloor (q + 1 / 2)

/-- `f32` division where the result may be non-finite: `0.0 / 0.0` is NaN and
`x / 0.0` is an infinity, both modelled by `none`. -/
def fdiv (a b : ℚ) : Option ℚ := if b = 0 then none else some (a / b)

/-- Color value (`Rgb<f32>`); an opaque triple as far as this model cares. -/
structure Rgb where
  r : ℚ
  g : ℚ
  b : ℚ
deriving DecidableEq

/-- The default color `Rgb::new(0.0, 0.0, 0.0)` used by `build_led_list`. -/
def black : Rgb := ⟨0, 0, 0⟩

/-- A sample non-default color used in concrete evaluations. -/
def red : Rgb := ⟨1, 0, 0⟩

/-- `internal::config::LineSegment`: start, end and density (LEDs per unit
length).  `end` is a Lean keyword, hence the field name `end_`. -/
structure LineSegment where
  start : Vec2
  end_ : Vec2
  density : ℚ
deriving DecidableEq

instance : Inhabited LineSegment := ⟨⟨⟨0, 0⟩, ⟨0, 0⟩, 0⟩⟩

/-- `LineSegment::length`: Euclidean distance from start to end
(`self.start.distance(self.end)`), computed via `ratSqrt` (exact on the
axis-aligned layouts used here). -/
def LineSegment.length (seg : LineSegment) : ℚ := ratSqrt (dist2 seg.start seg.end_)

/-- Modelled from the spec: `num_leds = max(1, round(length * density))`
(§3 of the spec); `LineSegment::num_leds` is called by `Sled::new` and
`vertex_indices` but its definition is not among the provided sources. -/
def LineSegment.num_leds (seg : LineSegment) : Nat :=
  (max 1 (ratRound (seg.length * seg.density))).toNat

/-- `internal::error::SledError`: carries only a message string. -/
structure SledError where
  message : String
deriving DecidableEq

/-- `internal::config::Config` after parsing: a center point and the ordered
segment list (each segment's density already resolved against the default). -/
structure Config where
  center_point : Vec2
  line_segments : List LineSegment
deriving DecidableEq

/-- One LED of the buffer.  `position` is `Option`al because the source
computes it through an `f32` division that can be `0.0 / 0.0` (NaN); `none`
models a non-finite position.  The `direction` field of the source
(`normalize(position - center)`) is irrational-valued and unused by every
property below, so it is omitted. -/
structure Led where
  color : Rgb
  position : Option Vec2
  index : Nat
  segment : Nat
deriving DecidableEq

/-- LEDs of one segment, from the inner loop of `Sled::build_led_list`:
`alpha = i as f32 / (segment_size - 1) as f32` (NaN when `segment_size == 1`),
`pos = segment.start.lerp(segment.end, alpha)`, index is the running buffer
length `offset + i`. -/
def segmentLeds (segment : LineSegment) (segment_index offset size : Nat) : List Led :=
  (List.range size).map fun (i : Nat) =>
    let alpha := fdiv (i : ℚ) ((size - 1 : Nat) : ℚ)
    { color := black
      position := alpha.map fun a => segment.start.lerp segment.end_ a
      index := Nat.add offset i
      segment := segment_index }

/-- Outer loop of `Sled::build_led_list`: segments in order, with the running
segment index and buffer offset. -/
def buildLedListGo : List (Nat × LineSegment) → Nat → Nat → List Led
  | [], _, _ => []
  | (size, segment) :: rest, segment_index, offset =>
      segmentLeds segment segment_index offset size ++
        buildLedListGo rest (segment_index + 1) (offset + size)

/-- `Sled::build_led_list`. -/
def buildLedList (leds_per_segment : List Nat) (line_segments : List LineSegment) : List Led :=
  buildLedListGo (leds_per_segment.zip line_segments) 0 0

/-- Loop of `Sled::line_segment_endpoint_indices`: pushes
`(last_index, last_index + num_leds)` per segment. -/
def lineSegmentEndpointIndicesGo : List Nat → Nat → List (Nat × Nat)
  | [], _ => []
  | n :: rest, last => (last, last + n) :: lineSegmentEndpointIndicesGo rest (last + n)

/-- `Sled::line_segment_endpoint_indices`. -/
def lineSegmentEndpointIndices (leds_per_segment : List Nat) : List (Nat × Nat) :=
  lineSegmentEndpointIndicesGo leds_per_segment 0

/-- Loop of `Sled::vertex_indices`: pushes `last_index` when the segment's
start differs from the previous segment's end (`Some(line.start) !=
last_end_point`), and always pushes `last_index + num_leds - 1`. -/
def vertexIndicesGo : List LineSegment → Option Vec2 → Nat → List Nat
  | [], _, _ => []
  | line :: rest, last_end_point, last_index =>
      let n := line.num_leds
      (if some line.start ≠ last_end_point then [last_index] else []) ++
        [last_index + n - 1] ++
        vertexIndicesGo rest (some line.end_) (last_index + n)

/-- `Sled::vertex_indices`. -/
def vertexIndices (line_segments : List LineSegment) : List Nat :=
  vertexIndicesGo line_segments none 0

/-- The vertex walk as the spec words it (§4.1): first segment always
contributes its start; a later segment contributes its start index only when
its start position differs from the previous segment's end; every segment
contributes its last LED index. -/
def specVertexWalkGo : List LineSegment → Option Vec2 → Nat → List Nat
  | [], _, _ => []
  | line :: rest, prev_end, offset =>
      let n := line.num_leds
      let start_contribution :=
        match prev_end with
        | none => [offset]
        | some p => if line.start = p then [] else [offset]
      start_contribution ++ [offset + n - 1] ++
        specVertexWalkGo rest (some line.end_) (offset + n)

/-- Vertex table as described by the spec's own words, for comparison with
the source's `vertexIndices`. -/
def specVertexWalk (line_segments : List LineSegment) : List Nat :=
  specVertexWalkGo line_segments none 0

/-- The spatial index (`Sled` struct). -/
structure Sled where
  center_point : Vec2
  leds : List Led
  line_segments : List LineSegment
  line_segment_endpoint_indices : List (Nat × Nat)
  vertex_indices : List Nat
deriving DecidableEq

/-- The construction body of `Sled::new`, applied to an already-parsed
config. -/
def Sled.build (config : Config) : Sled :=
  let leds_per_segment := config.line_segments.map LineSegment.num_leds
  { center_point := config.center_point
    leds := buildLedList leds_per_segment config.line_segments
    line_segments := config.line_segments
    line_segment_endpoint_indices := lineSegmentEndpointIndices leds_per_segment
    vertex_indices := vertexIndices config.line_segments }

/-- `Sled::new`.  The only `?` in the source is on
`Config::from_toml_file` (file read plus TOML parse); given the parsed
`Config` the body performs no validation and cannot fail, so the result is
always `ok`. -/
def Sled.new (config : Config) : Except SledError Sled :=
  Except.ok (Sled.build config)

/-- `Sled::num_leds`. -/
def Sled.num_leds (s : Sled) : Nat := s.leds.length

/-- `Sled::num_segments`. -/
def Sled.num_segments (s : Sled) : Nat := s.line_segments.length

/-- Rust slice indexing `&l[a..b]`: defined when `a <= b && b <= l.len()`,
otherwise the program panics — the panic is modelled by `none`. -/
def sliceIdx (l : List Led) (a b : Nat) : Option (List Led) :=
  if a ≤ b ∧ b ≤ l.length then some ((l.drop a).take (b - a)) else none

/-- `Sled::get`: `self.leds.get(index)`. -/
def Sled.get (s : Sled) (index : Nat) : Option Led := s.leds[index]?

/-- `Sled::get_range`: the source returns a bare slice `&self.leds[index_range]`
with no `None`/error path; `none` here models the out-of-bounds panic of the
slice indexing. -/
def Sled.get_range (s : Sled) (a b : Nat) : Option (List Led) :=
  sliceIdx s.leds a b

/-- `Sled::get_segment`: `None` when the segment index is not in the endpoint
table; otherwise slices the buffer (the slice is always in bounds on a
constructed layout). -/
def Sled.get_segment (s : Sled) (segment_index : Nat) : Option (List Led) :=
  match s.line_segment_endpoint_indices[segment_index]? with
  | none => none
  | some (start, stop) => sliceIdx s.leds start stop

/-- `Sled::get_segments` (segmental revisions): checks `range.start` against
the table length, reads `table[range.start].0` and `table[range.end].1`
(`None` via `?` when `range.end` is out of the table) and slices the buffer
between them — the LEDs of segments `range.start ..= range.end`. -/
def Sled.get_segments (s : Sled) (a b : Nat) : Option (List Led) :=
  if a ≥ s.line_segment_endpoint_indices.length then none
  else
    match s.line_segment_endpoint_indices[a]?, s.line_segment_endpoint_indices[b]? with
    | some (start, _), some (_, stop) => sliceIdx s.leds start stop
    | _, _ => none

/-- `Sled::get_vertex` (lib.rs revision): looks the vertex up in
`vertex_indices`, then fetches that buffer position. -/
def Sled.get_vertex (s : Sled) (vertex_index : Nat) : Option Led :=
  match s.vertex_indices[vertex_index]? with
  | none => none
  | some led_index => s.get led_index

/-- `Sled::vertex` (spatial_led revision, same body as `Sled::get_vertex` of
the sled/segmental revision): bounds-checks `vertex_index` against
`vertex_indices.len()` but then returns `&self.leds[vertex_index]` — the
buffer is indexed by the vertex index itself, not by
`vertex_indices[vertex_index]`. -/
def Sled.vertex (s : Sled) (vertex_index : Nat) : Option Led :=
  if vertex_index ≥ s.vertex_indices.length then none
  else s.leds[vertex_index]?

/-- Outcome of a mutating method on `&mut self`: `ok`/`err` carry the state
of the `Sled` when the method returns (an `err` can carry mutations already
applied, since the receiver is borrowed mutably), `panicked` models an abort
with no resulting state. -/
inductive Outcome where
  | ok : Sled → Outcome
  | err : SledError → Sled → Outcome
  | panicked : Outcome
deriving DecidableEq

/-- The sled state an outcome leaves behind (`none` for a panic). -/
def Outcome.state? : Outcome → Option Sled
  | .ok s => some s
  | .err _ s => some s
  | .panicked => none

/-- Whether the outcome is an `Err` return. -/
def Outcome.isErr : Outcome → Bool
  | .err _ _ => true
  | _ => false

/-- `led.color = color` on the LED at one buffer position (out-of-range
position: no change, matching the guarded call sites). -/
def setColorAt : List Led → Nat → Rgb → List Led
  | [], _, _ => []
  | led :: rest, 0, c => { led with color := c } :: rest
  | led :: rest, n + 1, c => led :: setColorAt rest n c

/-- `for led in &mut leds[a..b] { led.color = rule(led) }`, walking the buffer
with a running index `i`: exactly the positions in `[a, b)` are recolored. -/
def applyColorsGo (rule : Led → Rgb) (a b : Nat) : Nat → List Led → List Led
  | _, [] => []
  | i, led :: rest =>
      (if a ≤ i ∧ i < b then { led with color := rule led } else led) ::
        applyColorsGo rule a b (i + 1) rest

/-- `Sled::set`: recolors the LED at `index`, or returns an error (leaving the
buffer untouched) when the index is out of bounds. -/
def Sled.set (s : Sled) (index : Nat) (color : Rgb) : Outcome :=
  if index < s.leds.length then
    .ok { s with leds := setColorAt s.leds index color }
  else
    .err { message := "LED at index does not exist." } s

/-- The `for index in index_range { self.set(index, color)? }` loop of
`Sled::set_range`, over the explicit index list: mutations made before a
failing `set` stay in place when the `?` propagates the error. -/
def Sled.setSeq (s : Sled) (indices : List Nat) (color : Rgb) : Outcome :=
  match indices with
  | [] => .ok s
  | i :: rest =>
      match s.set i color with
      | .ok s' => s'.setSeq rest color
      | .err e s' => .err e s'
      | .panicked => .panicked

/-- `Sled::set_range`: iterates `index_range` and recolors element by
element, propagating the first out-of-bounds error with `?`. -/
def Sled.set_range (s : Sled) (a b : Nat) (color : Rgb) : Outcome :=
  s.setSeq (List.range' a (b - a)) color

/-- `Sled::set_segments` (segmental revisions): validates only `range.start`
against the table; `range.end` is then used to index the table directly,
which panics when it is out of bounds; otherwise recolors the buffer slice
`leds[table[range.start].0 .. table[range.end].1]` in one pass (a slice
out of the buffer's bounds would also panic). -/
def Sled.set_segments (s : Sled) (a b : Nat) (color : Rgb) : Outcome :=
  if a ≥ s.line_segment_endpoint_indices.length then
    .err { message := "Segment index range extends beyond the number of segments in the system." } s
  else
    match s.line_segment_endpoint_indices[b]? with
    | none => .panicked
    | some (_, stop) =>
        let start := (s.line_segment_endpoint_indices.getD a (0, 0)).1
        if start ≤ stop ∧ stop ≤ s.leds.length then
          .ok { s with leds := applyColorsGo (fun _ => color) start stop 0 s.leds }
        else .panicked

/-- `Sled::modulate_segments` (segmental revisions): same control flow as
`set_segments` with a color rule applied per LED. -/
def Sled.modulate_segments (s : Sled) (a b : Nat) (rule : Led → Rgb) : Outcome :=
  if a ≥ s.line_segment_endpoint_indices.length then
    .err { message := "Segment index range extends beyond the number of segments in the system." } s
  else
    match s.line_segment_endpoint_indices[b]? with
    | none => .panicked
    | some (_, stop) =>
        let start := (s.line_segment_endpoint_indices.getD a (0, 0)).1
        if start ≤ stop ∧ stop ≤ s.leds.length then
          .ok { s with leds := applyColorsGo rule start stop 0 s.leds }
        else .panicked

/-- `Sled::set_vertex` (lib.rs revision): resolves the vertex through
`vertex_indices` via `get_vertex_mut` and recolors that LED, erroring (with
the state untouched) when either lookup misses. -/
def Sled.set_vertex (s : Sled) (vertex_index : Nat) (color : Rgb) : Outcome :=
  match s.vertex_indices[vertex_index]? with
  | none => .err { message := "Vertex with index does not exist." } s
  | some led_index =>
      if led_index < s.leds.length then
        .ok { s with leds := setColorAt s.leds led_index color }
      else .err { message := "Vertex with index does not exist." } s

/-- `Sled::alpha_to_index`: `startpoint_index + (segment_alpha *
leds_in_segment as f32).floor() as usize`.  The trailing conditional of the
source, `if target > self.num_leds() { target } else { target }`, returns
`target` on both branches and is kept verbatim: no clamping happens.  The
`as usize` cast of a negative float saturates to zero, matching `Int.toNat`. -/
def Sled.alpha_to_index (s : Sled) (segment_alpha : ℚ) (segment_index : Nat) : Nat :=
  let segment := s.line_segments.getD segment_index default
  let startpoint_index := (s.line_segment_endpoint_indices.getD segment_index (0, 0)).1
  let leds_in_segment : ℚ := (segment.num_leds : ℚ)
  let target := startpoint_index + (ratFloor (segment_alpha * leds_in_segment)).toNat
  if target > s.num_leds then target else target

/-- Modelled from the spec (§4.4): the ordered pair of roots `t1 ≤ t2` of
the quadratic `|start + t*(end - start) - pos|^2 = r^2` shared by both
circle-intersection queries; `none` when the segment is degenerate or its
line misses the circle.  `ratSqrt` is exact on every discriminant evaluated
concretely below (the roots coincide exactly when the line is tangent). -/
def circleRoots (seg : LineSegment) (pos : Vec2) (r : ℚ) : Option (ℚ × ℚ) :=
  let d := seg.end_ - seg.start
  let m := seg.start - pos
  let a := dot d d
  let b := dot m d
  let c := dot m m - r ^ 2
  if a = 0 then none
  else
    let disc := b ^ 2 - a * c
    if disc < 0 then none
    else
      let sq := ratSqrt disc
      some ((-b - sq) / a, (-b + sq) / a)

/-- Modelled from the spec (§4.4): `LineSegment::intersects_circle` returns
the parametric intersections in `[0, 1]` of the segment with the circle of
radius `r` centered at `pos` — the 0, 1 or 2 in-range roots of the
corresponding quadratic.  The definition is not among the provided
sources. -/
def LineSegment.intersects_circle (seg : LineSegment) (pos : Vec2) (r : ℚ) : List ℚ :=
  match circleRoots seg pos r with
  | none => []
  | some (t1, t2) =>
      if t1 = t2 then (if 0 ≤ t1 ∧ t1 ≤ 1 then [t1] else [])
      else
        (if 0 ≤ t1 ∧ t1 ≤ 1 then [t1] else []) ++
          (if 0 ≤ t2 ∧ t2 ≤ 1 then [t2] else [])

/-- Modelled from the spec (§4.4): `LineSegment::intersects_solid_circle`
returns the entry and exit parameters of the sub-range of the segment lying
inside the disk, clamped to `[0, 1]` (a segment fully inside yields
`[0, 1]`, per the spec's fourth example); fewer than two values when the
intersection with the disk is empty or degenerate.  The definition is not
among the provided sources. -/
def LineSegment.intersects_solid_circle (seg : LineSegment) (pos : Vec2) (r : ℚ) : List ℚ :=
  match circleRoots seg pos r with
  | none => []
  | some (t1, t2) =>
      let entry := max t1 0
      let exitT := min t2 1
      if entry < exitT then [entry, exitT] else []

/-- `self.get(i).unwrap()` over a list of buffer indices, pushing the found
LEDs in order; an index out of bounds makes the `unwrap` panic (`none`). -/
def Sled.collectLeds (s : Sled) : List Nat → Option (List Led)
  | [] => some []
  | i :: rest =>
      match s.get i with
      | none => none
      | some led => (s.collectLeds rest).map (led :: ·)

/-- One segment's contribution to `Sled::get_at_dist_from`: each circle
intersection parameter is converted by `alpha_to_index` and the LED at that
index is fetched with `get(..).unwrap()`. -/
def Sled.atDistSegment (s : Sled) (pos : Vec2) (dist : ℚ) (i : Nat)
    (seg : LineSegment) : Option (List Led) :=
  s.collectLeds ((seg.intersects_circle pos dist).map fun alpha => s.alpha_to_index alpha i)

/-- Segment loop of `Sled::get_at_dist_from` (enumerated in order). -/
def Sled.atDistGo (s : Sled) (pos : Vec2) (dist : ℚ) : Nat → List LineSegment → Option (List Led)
  | _, [] => some []
  | i, seg :: rest =>
      match s.atDistSegment pos dist i seg, s.atDistGo pos dist (i + 1) rest with
      | some xs, some ys => some (xs ++ ys)
      | _, _ => none

/-- `Sled::get_at_dist_from`: the exact-distance (ring) query; `none` models
the panic of an `unwrap` on an out-of-range converted index. -/
def Sled.get_at_dist_from (s : Sled) (pos : Vec2) (dist : ℚ) : Option (List Led) :=
  s.atDistGo pos dist 0 s.line_segments

/-- One segment's contribution to `Sled::get_within_dist_from`: when the
solid-circle intersection yields both an entry and an exit parameter, the
half-open index range `first.min(second)..first.max(second)` is pushed
(each LED via `get(..).unwrap()`); otherwise nothing. -/
def Sled.withinSegment (s : Sled) (pos : Vec2) (dist : ℚ) (i : Nat)
    (seg : LineSegment) : Option (List Led) :=
  let intersections := seg.intersects_solid_circle pos dist
  match intersections[0]?, intersections[1]? with
  | some a, some b =>
      let first := s.alpha_to_index a i
      let second := s.alpha_to_index b i
      s.collectLeds (List.range' (min first second) (max first second - min first second))
  | _, _ => some []

/-- Segment loop of `Sled::get_within_dist_from`. -/
def Sled.withinGo (s : Sled) (pos : Vec2) (dist : ℚ) : Nat → List LineSegment → Option (List Led)
  | _, [] => some []
  | i, seg :: rest =>
      match s.withinSegment pos dist i seg, s.withinGo pos dist (i + 1) rest with
      | some xs, some ys => some (xs ++ ys)
      | _, _ => none

/-- `Sled::get_within_dist_from`: the disk query. -/
def Sled.get_within_dist_from (s : Sled) (pos : Vec2) (dist : ℚ) : Option (List Led) :=
  s.withinGo pos dist 0 s.line_segments

/-! ### Concrete layouts used by the claims -/

/-- Single segment `(0,0) -> (10,0)` with density `1`. -/
def segA : LineSegment := ⟨⟨0, 0⟩, ⟨10, 0⟩, 1⟩

/-- The layout of the spec's first example: one segment `(0,0) -> (10,0)`,
density `1`, center `(5,0)`. -/
def cfgA : Config := ⟨⟨5, 0⟩, [segA]⟩

/-- The constructed spatial index for `cfgA` (10 LEDs under the spec's
`num_leds` formula). -/
def sledA : Sled := Sled.build cfgA

/-- Single segment `(0,0) -> (10,0)` with density `11/10`, giving 11 LEDs at
the integer x-coordinates `0..10`. -/
def segB : LineSegment := ⟨⟨0, 0⟩, ⟨10, 0⟩, 11 / 10⟩

/-- Layout with 11 LEDs at integer positions, center `(5,0)`. -/
def cfgB : Config := ⟨⟨5, 0⟩, [segB]⟩

/-- The constructed spatial index for `cfgB`. -/
def sledB : Sled := Sled.build cfgB

/-- Second segment of the spec's vertex-collapsing example:
`(10,0) -> (10,10)`, density `1`. -/
def segC : LineSegment := ⟨⟨10, 0⟩, ⟨10, 10⟩, 1⟩

/-- Two segments sharing the endpoint `(10,0)`. -/
def cfgC : Config := ⟨⟨5, 5⟩, [segA, segC]⟩

/-- Single segment of length 1 with density 1: exactly one LED. -/
def seg9 : LineSegment := ⟨⟨0, 0⟩, ⟨1, 0⟩, 1⟩

/-- Layout whose one segment carries a single LED. -/
def cfg9 : Config := ⟨⟨5, 0⟩, [seg9]⟩

/-- A configuration with an empty segment list. -/
def cfgEmpty : Config := ⟨⟨0, 0⟩, []⟩

/-- A configuration whose only segment has a negative density. -/
def cfgNeg : Config := ⟨⟨0, 0⟩, [⟨⟨0, 0⟩, ⟨10, 0⟩, -1⟩]⟩

/-- The constructed spatial index for `cfg9` (one LED). -/
def sled9 : Sled := Sled.build cfg9

/-- `sled9` with its single LED recolored red — the state every mutator below
reaches from `sled9`. -/
def sled9Red : Sled :=
  { sled9 with leds := [{ color := red, position := none, index := 0, segment := 0 }] }

/-- The structural (never recolored) part of an LED. -/
def Led.skeleton (led : Led) : Option Vec2 × Nat × Nat :=
  (led.position, led.index, led.segment)

/-- Everything of a `Sled` except the LED colors. -/
def Sled.skeleton (s : Sled) :
    Vec2 × List LineSegment × List (Nat × Nat) × List Nat × List (Option Vec2 × Nat × Nat) :=
  (s.center_point, s.line_segments, s.line_segment_endpoint_indices, s.vertex_indices,
    s.leds.map Led.skeleton)

/-! ### Sanity checks on the concrete layouts -/

example : segA.num_leds = 10 := by with_unfolding_all decide
example : segB.num_leds = 11 := by with_unfolding_all decide
example : segC.num_leds = 10 := by with_unfolding_all decide
example : seg9.num_leds = 1 := by with_unfolding_all decide
example : sledA.vertex_indices = [0, 9] := by with_unfolding_all decide
example : (Sled.build cfgC).vertex_indices = [0, 9, 19] := by with_unfolding_all decide
example : sledB.num_leds = 11 := by with_unfolding_all decide
example : (sledB.leds.map Led.position).take 3 =
    [some ⟨0, 0⟩, some ⟨1, 0⟩, some ⟨2, 0⟩] := by with_unfolding_all decide

/-! ### Structural facts about construction -/

theorem segmentLeds_length (seg : LineSegment) (si off size : Nat) :
    (segmentLeds seg si off size).length = size := by
  simp [segmentLeds]

theorem segmentLeds_getElem? (seg : LineSegment) (si off size i : Nat) (hi : i < size) :
    (segmentLeds seg si off size)[i]? =
      some { color := black
             position := (fdiv (i : ℚ) ((size - 1 : Nat) : ℚ)).map
               fun a => seg.start.lerp seg.end_ a
             index := off + i
             segment := si } := by
  simp [segmentLeds, List.getElem?_map, List.getElem?_range, hi, Nat.add]

theorem buildLedListGo_length (l : List (Nat × LineSegment)) (si off : Nat) :
    (buildLedListGo l si off).length = (l.map Prod.fst).sum := by
  induction l generalizing si off with
  | nil => rfl
  | cons hd tl ih =>
      obtain ⟨size, seg⟩ := hd
      simp [buildLedListGo, segmentLeds_length, ih]

theorem buildLedListGo_index (l : List (Nat × LineSegment)) (si off j : Nat) (led : Led)
    (h : (buildLedListGo l si off)[j]? = some led) : led.index = off + j := by
  induction l generalizing si off j with
  | nil => simp [buildLedListGo] at h
  | cons hd tl ih =>
      obtain ⟨size, seg⟩ := hd
      rw [buildLedListGo, List.getElem?_append, segmentLeds_length] at h
      by_cases hj : j < size
      · rw [if_pos hj, segmentLeds_getElem? seg si off size j hj] at h
        cases h
        rfl
      · rw [if_neg hj] at h
        have := ih (si + 1) (off + size) (j - size) h
        omega

theorem buildLedList_length (lps : List Nat) (segs : List LineSegment)
    (hlen : lps.length ≤ segs.length) :
    (buildLedList lps segs).length = lps.sum := by
  rw [buildLedList, buildLedListGo_length, List.map_fst_zip _ _ hlen]

theorem buildLedList_index (lps : List Nat) (segs : List LineSegment) (j : Nat) (led : Led)
    (h : (buildLedList lps segs)[j]? = some led) : led.index = j := by
  have := buildLedListGo_index (lps.zip segs) 0 0 j led h
  omega

theorem endpointIndicesGo_length (lps : List Nat) (base : Nat) :
    (lineSegmentEndpointIndicesGo lps base).length = lps.length := by
  induction lps generalizing base with
  | nil => rfl
  | cons hd tl ih => simp [lineSegmentEndpointIndicesGo, ih]

theorem endpointIndicesGo_getElem? (lps : List Nat) (base i : Nat) (hi : i < lps.length) :
    (lineSegmentEndpointIndicesGo lps base)[i]? =
      some (base + (lps.take i).sum, base + (lps.take i).sum + lps.getD i 0) := by
  induction lps generalizing base i with
  | nil => simp at hi
  | cons hd tl ih =>
      cases i with
      | zero => simp [lineSegmentEndpointIndicesGo]
      | succ i =>
          have hi' : i < tl.length := by simpa using hi
          rw [lineSegmentEndpointIndicesGo, List.getElem?_cons_succ, ih (base + hd) i hi']
          simp only [List.take_succ_cons, List.sum_cons, List.getD_cons_succ,
            Option.some.injEq, Prod.mk.injEq]
          omega

theorem take_sum_succ (l : List Nat) (i : Nat) (hi : i < l.length) :
    (l.take (i + 1)).sum = (l.take i).sum + l.getD i 0 := by
  induction l generalizing i with
  | nil => simp at hi
  | cons hd tl ih =>
      cases i with
      | zero => simp
      | succ i =>
          have hi' : i < tl.length := by simpa using hi
          simp [List.take_succ_cons, ih i hi', Nat.add_assoc]

theorem take_sum_le_sum (l : List Nat) (i : Nat) : (l.take i).sum ≤ l.sum := by
  induction l generalizing i with
  | nil => simp
  | cons hd tl ih =>
      cases i with
      | zero => simp
      | succ i => simpa using Nat.add_le_add_left (ih i) hd

theorem take_sum_mono (l : List Nat) : ∀ {a b : Nat}, a ≤ b →
    (l.take a).sum ≤ (l.take b).sum := by
  induction l with
  | nil => intro a b _; simp
  | cons hd tl ih =>
      intro a b h
      cases a with
      | zero => simp
      | succ a =>
          cases b with
          | zero => omega
          | succ b =>
              simpa using Nat.add_le_add_left (ih (Nat.succ_le_succ_iff.mp h)) hd

/-! ### Pointwise behavior of the color mutators -/

theorem setColorAt_length (l : List Led) (n : Nat) (c : Rgb) :
    (setColorAt l n c).length = l.length := by
  induction l generalizing n with
  | nil => rfl
  | cons hd tl ih =>
      cases n with
      | zero => rfl
      | succ n => simp [setColorAt, ih]

theorem setColorAt_getElem? (l : List Led) (n : Nat) (c : Rgb) (j : Nat) :
    (setColorAt l n c)[j]? =
      if j = n then (l[j]?).map (fun led => { led with color := c }) else l[j]? := by
  induction l generalizing n j with
  | nil => simp [setColorAt]
  | cons hd tl ih =>
      cases n with
      | zero =>
          cases j with
          | zero => simp [setColorAt]
          | succ j => simp [setColorAt]
      | succ n =>
          cases j with
          | zero => simp [setColorAt]
          | succ j => simpa [setColorAt] using ih n j

theorem setColorAt_skeleton (l : List Led) (n : Nat) (c : Rgb) :
    (setColorAt l n c).map Led.skeleton = l.map Led.skeleton := by
  induction l generalizing n with
  | nil => rfl
  | cons hd tl ih =>
      cases n with
      | zero => simp [setColorAt, Led.skeleton]
      | succ n => simp [setColorAt, ih]

theorem applyColorsGo_length (rule : Led → Rgb) (a b i : Nat) (l : List Led) :
    (applyColorsGo rule a b i l).length = l.length := by
  induction l generalizing i with
  | nil => rfl
  | cons hd tl ih => simp [applyColorsGo, ih]

theorem applyColorsGo_getElem? (rule : Led → Rgb) (a b i : Nat) (l : List Led) (j : Nat) :
    (applyColorsGo rule a b i l)[j]? =
      (l[j]?).map fun led =>
        if a ≤ i + j ∧ i + j < b then { led with color := rule led } else led := by
  induction l generalizing i j with
  | nil => simp [applyColorsGo]
  | cons hd tl ih =>
      cases j with
      | zero => simp [applyColorsGo]
      | succ j =>
          rw [applyColorsGo, List.getElem?_cons_succ, List.getElem?_cons_succ, ih (i + 1) j]
          have : i + 1 + j = i + (j + 1) := by omega
          rw [this]

theorem applyColorsGo_skeleton (rule : Led → Rgb) (a b i : Nat) (l : List Led) :
    (applyColorsGo rule a b i l).map Led.skeleton = l.map Led.skeleton := by
  induction l generalizing i with
  | nil => rfl
  | cons hd tl ih =>
      simp only [applyColorsGo, List.map_cons, ih]
      by_cases h : a ≤ i ∧ i < b <;> simp [h, Led.skeleton]

theorem set_skeleton (s : Sled) (i : Nat) (c : Rgb) (s' : Sled)
    (h : (s.set i c).state? = some s') : s'.skeleton = s.skeleton := by
  rw [Sled.set] at h
  split at h
  · cases h
    simp [Sled.skeleton, setColorAt_skeleton]
  · cases h
    rfl

theorem setSeq_skeleton (idxs : List Nat) (s : Sled) (c : Rgb) (s' : Sled)
    (h : (s.setSeq idxs c).state? = some s') : s'.skeleton = s.skeleton := by
  induction idxs generalizing s with
  | nil =>
      rw [Sled.setSeq] at h
      cases h
      rfl
  | cons i rest ih =>
      rw [Sled.setSeq] at h
      rcases ho : s.set i c with s₁ | ⟨e, s₁⟩ | _
      · rw [ho] at h
        exact (ih s₁ h).trans (set_skeleton s i c s₁ (by rw [ho]; rfl))
      · rw [ho] at h
        cases h
        exact set_skeleton s i c s' (by rw [ho]; rfl)
      · rw [ho] at h
        cases h

theorem set_range_skeleton (s : Sled) (a b : Nat) (c : Rgb) (s' : Sled)
    (h : (s.set_range a b c).state? = some s') : s'.skeleton = s.skeleton :=
  setSeq_skeleton _ s c s' h

theorem set_segments_skeleton (s : Sled) (a b : Nat) (c : Rgb) (s' : Sled)
    (h : (s.set_segments a b c).state? = some s') : s'.skeleton = s.skeleton := by
  rw [Sled.set_segments] at h
  split at h
  · cases h; rfl
  · split at h
    · cases h
    · dsimp only at h
      split at h
      · cases h
        simp [Sled.skeleton, applyColorsGo_skeleton]
      · cases h

theorem modulate_segments_skeleton (s : Sled) (a b : Nat) (rule : Led → Rgb) (s' : Sled)
    (h : (s.modulate_segments a b rule).state? = some s') : s'.skeleton = s.skeleton := by
  rw [Sled.modulate_segments] at h
  split at h
  · cases h; rfl
  · split at h
    · cases h
    · dsimp only at h
      split at h
      · cases h
        simp [Sled.skeleton, applyColorsGo_skeleton]
      · cases h

theorem set_vertex_skeleton (s : Sled) (v : Nat) (c : Rgb) (s' : Sled)
    (h : (s.set_vertex v c).state? = some s') : s'.skeleton = s.skeleton := by
  rw [Sled.set_vertex] at h
  split at h
  · cases h; rfl
  · split at h
    · cases h
      simp [Sled.skeleton, setColorAt_skeleton]
    · cases h; rfl

/-! ### The element-by-element `set_range` loop -/

theorem setSeq_range'_err (k : Nat) :
    ∀ (s : Sled) (i : Nat) (c : Rgb), s.num_leds < i + k → i ≤ s.num_leds →
    ∃ e s', s.setSeq (List.range' i k) c = .err e s' ∧
      ∀ j, s'.leds[j]? =
        if i ≤ j ∧ j < s.num_leds then
          (s.leds[j]?).map (fun led => { led with color := c })
        else s.leds[j]? := by
  induction k with
  | zero => intro s i c h1 h2; omega
  | succ k ih =>
      intro s i c h1 h2
      have hnl : s.num_leds = s.leds.length := rfl
      rw [List.range'_succ, Sled.setSeq]
      rcases Nat.lt_or_ge i s.num_leds with hi | hi
      · rw [Sled.set, if_pos (show i < s.leds.length by omega)]
        have hlen : Sled.num_leds { s with leds := setColorAt s.leds i c } = s.num_leds := by
          simp only [Sled.num_leds, setColorAt_length]
        obtain ⟨e, s', hs, hpt⟩ :=
          ih { s with leds := setColorAt s.leds i c } (i + 1) c (by omega) (by omega)
        refine ⟨e, s', hs, fun j => ?_⟩
        have hj := hpt j
        rw [hlen] at hj
        simp only at hj
        rw [hj, setColorAt_getElem?]
        split_ifs <;> first | rfl | omega
      · rw [Sled.set, if_neg (by omega)]
        exact ⟨_, s, rfl, fun j => by rw [if_neg (by omega)]⟩

theorem setSeq_range'_ok (k : Nat) :
    ∀ (s : Sled) (i : Nat) (c : Rgb), i + k ≤ s.num_leds →
    ∃ s', s.setSeq (List.range' i k) c = .ok s' ∧
      ∀ j, s'.leds[j]? =
        if i ≤ j ∧ j < i + k then
          (s.leds[j]?).map (fun led => { led with color := c })
        else s.leds[j]? := by
  induction k with
  | zero =>
      intro s i c _
      exact ⟨s, rfl, fun j => by rw [if_neg (by omega)]⟩
  | succ k ih =>
      intro s i c h1
      have hnl : s.num_leds = s.leds.length := rfl
      rw [List.range'_succ, Sled.setSeq]
      have hi : i < s.num_leds := by omega
      rw [Sled.set, if_pos (show i < s.leds.length by omega)]
      have hlen : Sled.num_leds { s with leds := setColorAt s.leds i c } = s.num_leds := by
        simp only [Sled.num_leds, setColorAt_length]
      obtain ⟨s', hs, hpt⟩ :=
        ih { s with leds := setColorAt s.leds i c } (i + 1) c (by omega)
      refine ⟨s', hs, fun j => ?_⟩
      have hj := hpt j
      simp only at hj
      rw [hj, setColorAt_getElem?]
      split_ifs <;> first | rfl | omega

/-! ### Geometry lemmas for the distance queries -/

theorem ratSqrt_nonneg (q : ℚ) : 0 ≤ ratSqrt q :=
  div_nonneg (Nat.cast_nonneg _) (Nat.cast_nonneg _)

theorem dot_self_nonneg (v : Vec2) : 0 ≤ dot v v :=
  add_nonneg (mul_self_nonneg _) (mul_self_nonneg _)

theorem alpha_to_index_mono (s : Sled) {a b : ℚ} (h : a ≤ b) (i : Nat) :
    s.alpha_to_index a i ≤ s.alpha_to_index b i := by
  unfold Sled.alpha_to_index
  dsimp only
  rw [ite_self, ite_self]
  refine Nat.add_le_add_left (Int.toNat_le_toNat ?_) _
  rw [ratFloor_eq_floor, ratFloor_eq_floor]
  exact Int.floor_le_floor (mul_le_mul_of_nonneg_right h (Nat.cast_nonneg _))

theorem collectLeds_mem (s : Sled) (idxs : List Nat) (l : List Led) (i : Nat) (led : Led)
    (hc : s.collectLeds idxs = some l) (hi : i ∈ idxs) (hg : s.get i = some led) :
    led ∈ l := by
  induction idxs generalizing l with
  | nil => simp at hi
  | cons j rest ih =>
      rw [Sled.collectLeds] at hc
      rcases hgj : s.get j with _ | led_j
      · rw [hgj] at hc; cases hc
      · rw [hgj] at hc
        rcases hrest : s.collectLeds rest with _ | l'
        · rw [hrest] at hc; cases hc
        · rw [hrest] at hc
          cases hc
          rcases List.mem_cons.mp hi with rfl | hmem
          · rw [hg] at hgj
            cases hgj
            exact List.mem_cons_self _ _
          · exact List.mem_cons_of_mem _ (ih l' hrest hmem)

theorem collectLeds_pair (s : Sled) (f sc : Nat) (l : List Led)
    (hc : s.collectLeds [f, sc] = some l) :
    ∃ lf ls, s.get f = some lf ∧ s.get sc = some ls ∧ l = [lf, ls] := by
  rw [Sled.collectLeds] at hc
  rcases hgf : s.get f with _ | lf
  · rw [hgf] at hc; cases hc
  · rw [hgf] at hc
    rw [Sled.collectLeds] at hc
    rcases hgs : s.get sc with _ | ls
    · rw [hgs] at hc; cases hc
    · rw [hgs] at hc
      rw [Sled.collectLeds] at hc
      cases hc
      exact ⟨lf, ls, rfl, rfl, rfl⟩

theorem circleRoots_le {seg : LineSegment} {pos : Vec2} {r t1 t2 : ℚ}
    (h : circleRoots seg pos r = some (t1, t2)) : t1 ≤ t2 := by
  unfold circleRoots at h
  dsimp only at h
  by_cases ha : dot (seg.end_ - seg.start) (seg.end_ - seg.start) = 0
  · rw [if_pos ha] at h; cases h
  rw [if_neg ha] at h
  have hapos : 0 < dot (seg.end_ - seg.start) (seg.end_ - seg.start) :=
    lt_of_le_of_ne (dot_self_nonneg _) (Ne.symm ha)
  split at h
  · cases h
  · rw [Option.some.injEq, Prod.mk.injEq] at h
    obtain ⟨h1, h2⟩ := h
    rw [← h1, ← h2]
    have := ratSqrt_nonneg ((dot (seg.start - pos) (seg.end_ - seg.start)) ^ 2 -
      dot (seg.end_ - seg.start) (seg.end_ - seg.start) *
        (dot (seg.start - pos) (seg.start - pos) - r ^ 2))
    exact div_le_div_of_nonneg_right (by linarith) hapos.le

theorem intersects_circle_pair {seg : LineSegment} {pos : Vec2} {r a b : ℚ}
    (h : seg.intersects_circle pos r = [a, b]) :
    a ≤ b ∧ seg.intersects_solid_circle pos r = (if a < b then [a, b] else []) := by
  unfold LineSegment.intersects_circle at h
  unfold LineSegment.intersects_solid_circle
  rcases hcr : circleRoots seg pos r with _ | ⟨t1, t2⟩
  · rw [hcr] at h; simp at h
  rw [hcr] at h
  dsimp only at h ⊢
  by_cases heq : t1 = t2
  · rw [if_pos heq] at h
    split at h <;> simp at h
  rw [if_neg heq] at h
  by_cases h1 : 0 ≤ t1 ∧ t1 ≤ 1
  · by_cases h2 : 0 ≤ t2 ∧ t2 ≤ 1
    · rw [if_pos h1, if_pos h2] at h
      simp only [List.cons_append, List.nil_append, List.cons.injEq, and_true] at h
      obtain ⟨rfl, rfl⟩ := h
      exact ⟨circleRoots_le hcr, by rw [max_eq_left h1.1, min_eq_left h2.2]⟩
    · rw [if_pos h1, if_neg h2] at h; simp at h
  · rw [if_neg h1] at h
    by_cases h2 : 0 ≤ t2 ∧ t2 ≤ 1
    · rw [if_pos h2] at h; simp at h
    · rw [if_neg h2] at h; simp at h

theorem vertexIndicesGo_eq_spec (segs : List LineSegment) :
    ∀ (p : Option Vec2) (off : Nat), vertexIndicesGo segs p off = specVertexWalkGo segs p off := by
  induction segs with
  | nil => intro p off; rfl
  | cons line rest ih =>
      intro p off
      cases p with
      | none =>
          rw [vertexIndicesGo, specVertexWalkGo, ih]
          simp
      | some q =>
          rw [vertexIndicesGo, specVertexWalkGo, ih]
          by_cases hq : line.start = q <;> simp [hq]

/-- Per-segment superset relation between the ring query and the disk query:
when the circle meets a segment at parameters `a` and `b`, every LED the ring
query yields for that segment is in the disk query's output, except possibly
the one at the exit-boundary index `alpha_to_index b` (the emitted range is
half-open at the top). -/
theorem atDist_subset_within_segment (s : Sled) (pos : Vec2) (r : ℚ) (i : Nat)
    (seg : LineSegment) (a b : ℚ) (l₁ l₂ : List Led)
    (hroots : seg.intersects_circle pos r = [a, b])
    (h₁ : s.atDistSegment pos r i seg = some l₁)
    (h₂ : s.withinSegment pos r i seg = some l₂) :
    ∀ led ∈ l₁, led ∈ l₂ ∨ s.get (s.alpha_to_index b i) = some led := by
  obtain ⟨hab, hsolid⟩ := intersects_circle_pair hroots
  rw [Sled.atDistSegment, hroots] at h₁
  simp only [List.map_cons, List.map_nil] at h₁
  obtain ⟨lf, ls, hgf, hgs, rfl⟩ := collectLeds_pair s _ _ l₁ h₁
  rw [Sled.withinSegment, hsolid] at h₂
  have hfs := alpha_to_index_mono s hab i
  by_cases hlt : a < b
  · rw [if_pos hlt] at h₂
    simp only [List.getElem?_cons_zero, List.getElem?_cons_succ] at h₂
    intro led hmem
    rcases List.mem_cons.mp hmem with rfl | hmem'
    · rcases Nat.lt_or_ge (s.alpha_to_index a i) (s.alpha_to_index b i) with hlt2 | hge2
      · left
        refine collectLeds_mem s _ l₂ (s.alpha_to_index a i) led h₂ ?_ hgf
        rw [min_eq_left hfs, max_eq_right hfs]
        exact List.mem_range'_1.mpr ⟨le_refl _, by omega⟩
      · right
        have heq2 : s.alpha_to_index a i = s.alpha_to_index b i := le_antisymm hfs hge2
        rw [← heq2]
        exact hgf
    · rcases List.mem_cons.mp hmem' with rfl | hmem''
      · right; exact hgs
      · simp at hmem''
  · rw [if_neg hlt] at h₂
    simp only [List.getElem?_nil] at h₂
    have heq : a = b := le_antisymm hab (not_lt.mp hlt)
    intro led hmem
    rcases List.mem_cons.mp hmem with rfl | hmem'
    · right
      rw [← heq]
      exact hgf
    · rcases List.mem_cons.mp hmem' with rfl | h'
      · right; exact hgs
      · simp at h'

/-! ### Claim theorems -/

/-- Claim C1, amended: construction performs no layout validation.  Given any
parsed configuration, `Sled::new` succeeds — an empty segment list yields a
spatial index with zero LEDs and zero segments, and a negative density still
yields a (one-LED) segment — rather than failing with a descriptive error;
the only failures of `Sled::new` are file-read/TOML-parse errors, upstream of
the constructed layout. -/
theorem sled_new_never_fails :
    (∀ config : Config, Sled.new config = Except.ok (Sled.build config))
    ∧ (Sled.build cfgEmpty).num_leds = 0
    ∧ (Sled.build cfgEmpty).num_segments = 0
    ∧ (Sled.build cfgNeg).num_leds = 1 := by
  refine ⟨fun config => rfl, ?_, ?_, ?_⟩ <;> with_unfolding_all decide

/-- Claim C1, counterexample: constructing from an empty segment list returns
`Ok` with a zero-LED index, not an error — refuting "an empty segment list
… cause[s] construction to return an error". -/
theorem sled_new_empty_segment_list_ok :
    Sled.new cfgEmpty = Except.ok (Sled.build cfgEmpty)
    ∧ (Sled.build cfgEmpty).num_leds = 0 :=
  ⟨rfl, by with_unfolding_all decide⟩

/-- Claim C2 (code bug): on the single-segment layout `cfgA` the vertex table
is `[0, 9]`.  The lib.rs `get_vertex` resolves through the table and returns
the LED at buffer position 9, and `set_vertex` recolors buffer position 9;
but the segmental-revision `vertex` accessor returns the LED at buffer
position 1 (`&self.leds[vertex_index]`), contradicting its own doc comment
and its sibling `set_vertex`. -/
theorem vertex_accessor_inconsistency :
    sledA.vertex_indices = [0, 9]
    ∧ (sledA.get_vertex 1).map Led.index = some 9
    ∧ (sledA.vertex 1).map Led.index = some 1
    ∧ (sledA.set_vertex 1 red).state?.map (fun s => s.leds.map Led.color) =
        some [black, black, black, black, black, black, black, black, black, red] := by
  refine ⟨?_, ?_, ?_, ?_⟩ <;> with_unfolding_all decide

/-- Claim C3, counterexample: on the 11-LED layout `cfgB`,
`set_range(5..13, red)` returns an error yet leaves LEDs 5 through 10
recolored — the error return is not atomic, refuting "on any error return
the color of every LED is exactly what it was before the call". -/
theorem set_range_partial_mutation :
    (sledB.set_range 5 13 red).isErr = true
    ∧ (sledB.set_range 5 13 red).state?.map (fun s => s.leds.map Led.color) =
        some [black, black, black, black, black, red, red, red, red, red, red]
    ∧ sledB.leds.map Led.color =
        [black, black, black, black, black, black, black, black, black,
          black, black] := by
  refine ⟨?_, ?_, ?_⟩ <;> with_unfolding_all decide

/-- Claim C3, amended: `set_segments`/`modulate_segments` validate only
`range.start` — on that error they return with the state untouched, while an
out-of-bounds `range.end` panics (before mutating anything) instead of being
validated; `set_range` validates each index as it mutates, so a fully
in-bounds range succeeds atomically but an error return leaves the in-bounds
prefix `[a, num_leds)` of the range already recolored (partial mutation). -/
theorem bulk_mutation_error_behavior :
    (∀ (s : Sled) (a b : Nat) (c : Rgb), s.line_segment_endpoint_indices.length ≤ a →
      s.set_segments a b c =
        .err { message := "Segment index range extends beyond the number of segments in the system." } s)
    ∧ (∀ (s : Sled) (a b : Nat) (rule : Led → Rgb),
        s.line_segment_endpoint_indices.length ≤ a →
        s.modulate_segments a b rule =
          .err { message := "Segment index range extends beyond the number of segments in the system." } s)
    ∧ (∀ (s : Sled) (a b : Nat) (c : Rgb), a < s.line_segment_endpoint_indices.length →
        s.line_segment_endpoint_indices.length ≤ b → s.set_segments a b c = .panicked)
    ∧ (∀ (s : Sled) (a b : Nat) (c : Rgb), s.num_leds < b → a ≤ s.num_leds →
        ∃ e s', s.set_range a b c = .err e s' ∧
          ∀ j, s'.leds[j]? =
            if a ≤ j ∧ j < s.num_leds then
              (s.leds[j]?).map (fun led => { led with color := c })
            else s.leds[j]?)
    ∧ (∀ (s : Sled) (a b : Nat) (c : Rgb), a ≤ b → b ≤ s.num_leds →
        ∃ s', s.set_range a b c = .ok s' ∧
          ∀ j, s'.leds[j]? =
            if a ≤ j ∧ j < b then
              (s.leds[j]?).map (fun led => { led with color := c })
            else s.leds[j]?) := by
  refine ⟨?_, ?_, ?_, ?_, ?_⟩
  · intro s a b c h
    rw [Sled.set_segments, if_pos h]
  · intro s a b c h
    rw [Sled.modulate_segments, if_pos h]
  · intro s a b c ha hb
    rw [Sled.set_segments, if_neg (Nat.not_le.mpr ha), List.getElem?_eq_none hb]
  · intro s a b c h1 h2
    rw [Sled.set_range]
    obtain ⟨e, s', hs, hpt⟩ := setSeq_range'_err (b - a) s a c (by omega) h2
    exact ⟨e, s', hs, hpt⟩
  · intro s a b c hab hb
    rw [Sled.set_range]
    obtain ⟨s', hs, hpt⟩ := setSeq_range'_ok (b - a) s a c (by omega)
    refine ⟨s', hs, fun j => ?_⟩
    rw [hpt j]
    have hba : a + (b - a) = b := by omega
    rw [hba]

/-- Witness for `bulk_mutation_error_behavior`, discharging every hypothesis
at concrete layouts. -/
theorem bulk_mutation_error_behavior_witness :
    (sledA.set_segments 5 0 red =
      .err { message := "Segment index range extends beyond the number of segments in the system." } sledA)
    ∧ (sledA.modulate_segments 5 0 (fun _ => red) =
        .err { message := "Segment index range extends beyond the number of segments in the system." } sledA)
    ∧ sledA.set_segments 0 1 red = .panicked
    ∧ (∃ e s', sledB.set_range 5 13 red = .err e s' ∧
        ∀ j, s'.leds[j]? =
          if 5 ≤ j ∧ j < sledB.num_leds then
            (sledB.leds[j]?).map (fun led => { led with color := red })
          else sledB.leds[j]?)
    ∧ (∃ s', sledB.set_range 2 5 red = .ok s' ∧
        ∀ j, s'.leds[j]? =
          if 2 ≤ j ∧ j < 5 then
            (sledB.leds[j]?).map (fun led => { led with color := red })
          else sledB.leds[j]?) :=
  ⟨bulk_mutation_error_behavior.1 sledA 5 0 red (by with_unfolding_all decide),
   bulk_mutation_error_behavior.2.1 sledA 5 0 (fun _ => red) (by with_unfolding_all decide),
   bulk_mutation_error_behavior.2.2.1 sledA 0 1 red (by with_unfolding_all decide)
     (by with_unfolding_all decide),
   bulk_mutation_error_behavior.2.2.2.1 sledB 5 13 red (by with_unfolding_all decide)
     (by with_unfolding_all decide),
   bulk_mutation_error_behavior.2.2.2.2 sledB 2 5 red (by with_unfolding_all decide)
     (by with_unfolding_all decide)⟩

/-- Claim C4, amended: `get`, `get_segment` and `get_vertex` return `None` on
any out-of-bounds index and never panic; `get_range`, however, indexes the
buffer with a bare slice (`&self.leds[index_range]`) whose only out-of-bounds
behavior is a panic (modelled by `none`): there is no `None`/error return in
its signature. -/
theorem read_accessor_bounds :
    (∀ (s : Sled) (i : Nat), s.num_leds ≤ i → s.get i = none)
    ∧ (∀ (s : Sled) (k : Nat), s.line_segment_endpoint_indices.length ≤ k →
        s.get_segment k = none)
    ∧ (∀ (s : Sled) (v : Nat), s.vertex_indices.length ≤ v → s.get_vertex v = none)
    ∧ (∀ (s : Sled) (a b : Nat), s.num_leds < b → s.get_range a b = none) := by
  refine ⟨?_, ?_, ?_, ?_⟩
  · intro s i h
    exact List.getElem?_eq_none h
  · intro s k h
    rw [Sled.get_segment, List.getElem?_eq_none h]
  · intro s v h
    rw [Sled.get_vertex, List.getElem?_eq_none h]
  · intro s a b h
    have h' : s.leds.length < b := h
    rw [Sled.get_range, sliceIdx, if_neg (by omega)]

/-- Witness for `read_accessor_bounds` at concrete out-of-bounds inputs on
the ten-LED layout `cfgA`. -/
theorem read_accessor_bounds_witness :
    sledA.get 10 = none
    ∧ sledA.get_segment 1 = none
    ∧ sledA.get_vertex 2 = none
    ∧ sledA.get_range 0 12 = none :=
  ⟨read_accessor_bounds.1 sledA 10 (by with_unfolding_all decide),
   read_accessor_bounds.2.1 sledA 1 (by with_unfolding_all decide),
   read_accessor_bounds.2.2.1 sledA 2 (by with_unfolding_all decide),
   read_accessor_bounds.2.2.2 sledA 0 12 (by with_unfolding_all decide)⟩

/-- Claim C4, counterexample: `get_range(0..12)` on the ten-LED layout `cfgA`
reaches the out-of-bounds branch of the slice indexing.  The source returns
the bare slice `&self.leds[index_range]` — its return type has no `None` or
error value — so at this input the call aborts with a panic (modelled by
`none`) rather than returning a non-panicking `None`/error result. -/
theorem get_range_out_of_bounds_aborts :
    sledA.get_range 0 12 = none ∧ sledA.num_leds = 10 ∧ 10 < 12 := by
  refine ⟨?_, ?_, ?_⟩ <;> with_unfolding_all decide

/-- Claim C5 (code bug): `alpha_to_index` ends in
`if target > self.num_leds() { target } else { target }` — both branches
return `target`, so the comparison against the buffer length clamps nothing.
At intersection parameter `t = 1` on the (single, hence last) segment of
`cfgA`, `alpha_to_index` yields index 10 = `num_leds`, one past the buffer,
and `get_at_dist_from((12,0), 2)` — whose circle meets the segment exactly
at `t = 1` — panics on `get(10).unwrap()` (modelled `none`) instead of
clamping or rejecting. -/
theorem alpha_one_overflows_buffer :
    segA.intersects_circle ⟨12, 0⟩ 2 = [1]
    ∧ sledA.alpha_to_index 1 0 = sledA.num_leds
    ∧ sledA.get (sledA.alpha_to_index 1 0) = none
    ∧ sledA.get_at_dist_from ⟨12, 0⟩ 2 = none := by
  refine ⟨?_, ?_, ?_, ?_⟩ <;> with_unfolding_all decide

/-- Claim C6, counterexample: on the 11-LED layout `cfgB` with query point
`(5,0)` and radius 3, the ring query returns the LEDs at indices 2 and 8,
but the disk query returns indices 2 through 7 only: the exit-boundary LED 8
is in `get_at_dist_from` and not in `get_within_dist_from`, refuting the
superset claim. -/
theorem at_dist_not_subset_within :
    (sledB.get_at_dist_from ⟨5, 0⟩ 3).map (List.map Led.index) = some [2, 8]
    ∧ (sledB.get_within_dist_from ⟨5, 0⟩ 3).map (List.map Led.index) =
        some [2, 3, 4, 5, 6, 7] := by
  refine ⟨?_, ?_⟩ <;> with_unfolding_all decide

/-- Claim C6, amended: per segment, the disk query emits the half-open index
range between the two circle-intersection indices, so every LED the ring
query returns is in the disk query's output except possibly the LED at the
exit-boundary index `alpha_to_index b` (excluded because the emitted range
is half-open at the top); and a radius exceeding every LED's distance from
the query point returns all LEDs (segments fully inside the disk
included). -/
theorem within_dist_boundary_superset :
    (∀ (s : Sled) (pos : Vec2) (r : ℚ) (i : Nat) (seg : LineSegment) (a b : ℚ)
        (l₁ l₂ : List Led),
      seg.intersects_circle pos r = [a, b] →
      s.atDistSegment pos r i seg = some l₁ →
      s.withinSegment pos r i seg = some l₂ →
      ∀ led ∈ l₁, led ∈ l₂ ∨ s.get (s.alpha_to_index b i) = some led)
    ∧ (sledB.get_within_dist_from ⟨5, 0⟩ 100).map (List.map Led.index) =
        some [0, 1, 2, 3, 4, 5, 6, 7, 8, 9, 10] :=
  ⟨atDist_subset_within_segment, by with_unfolding_all decide⟩

/-- Witness for `within_dist_boundary_superset`: on the one-LED layout
`cfg9`, the circle around `(1/2, 0)` of radius `1/4` crosses the segment at
parameters `1/4` and `3/4`, both mapping to index 0; the ring query yields
that LED twice and the disk query's half-open range is empty, so the
boundary disjunct of the theorem fires. -/
theorem within_dist_boundary_superset_witness :
    ({ color := black, position := none, index := 0, segment := 0 } : Led) ∈ ([] : List Led)
    ∨ sled9.get (sled9.alpha_to_index (3 / 4) 0) =
        some { color := black, position := none, index := 0, segment := 0 } :=
  within_dist_boundary_superset.1 sled9 ⟨1 / 2, 0⟩ (1 / 4) 0 seg9 (1 / 4) (3 / 4)
    [{ color := black, position := none, index := 0, segment := 0 },
     { color := black, position := none, index := 0, segment := 0 }] []
    (by with_unfolding_all decide) (by with_unfolding_all decide)
    (by with_unfolding_all decide)
    { color := black, position := none, index := 0, segment := 0 }
    (by with_unfolding_all decide)

/-- Claim C7: the vertex table walks segments in order, pushing a segment's
first LED index as a new vertex exactly when its start differs from the
previous segment's end (the first segment always contributes its start) and
always pushing the segment's last LED index — the source walk coincides with
the spec's walk on every segment list — and the two touching segments of
`cfgC` produce exactly the 3 vertices `[0, 9, 19]`, not 4. -/
theorem vertex_collapsing_matches_spec :
    (∀ segs : List LineSegment, vertexIndices segs = specVertexWalk segs)
    ∧ (Sled.build cfgC).vertex_indices = [0, 9, 19] :=
  ⟨fun segs => by rw [vertexIndices, specVertexWalk, vertexIndicesGo_eq_spec],
   by with_unfolding_all decide⟩

/-- Claim C8: for every constructed layout the LED buffer length is the sum
of the per-segment LED counts, every LED's `index` field equals its buffer
position, and the endpoint table's `i`-th entry is the contiguous half-open
interval `(offset_i, offset_i + count_i)`; and every color mutator embedded
here (`set`, `set_range`, `set_segments`, `modulate_segments`, `set_vertex`)
preserves the entire non-color skeleton of the index in every non-panicking
outcome. -/
theorem construction_invariants :
    (∀ config : Config,
      (Sled.build config).leds.length = (config.line_segments.map LineSegment.num_leds).sum)
    ∧ (∀ (config : Config) (j : Nat) (led : Led),
        (Sled.build config).leds[j]? = some led → led.index = j)
    ∧ (∀ (config : Config) (i : Nat), i < config.line_segments.length →
        (Sled.build config).line_segment_endpoint_indices[i]? =
          some (((config.line_segments.map LineSegment.num_leds).take i).sum,
            ((config.line_segments.map LineSegment.num_leds).take i).sum +
              (config.line_segments.map LineSegment.num_leds).getD i 0))
    ∧ (∀ (s : Sled) (i : Nat) (c : Rgb) (s' : Sled),
        (s.set i c).state? = some s' → s'.skeleton = s.skeleton)
    ∧ (∀ (s : Sled) (a b : Nat) (c : Rgb) (s' : Sled),
        (s.set_range a b c).state? = some s' → s'.skeleton = s.skeleton)
    ∧ (∀ (s : Sled) (a b : Nat) (c : Rgb) (s' : Sled),
        (s.set_segments a b c).state? = some s' → s'.skeleton = s.skeleton)
    ∧ (∀ (s : Sled) (a b : Nat) (rule : Led → Rgb) (s' : Sled),
        (s.modulate_segments a b rule).state? = some s' → s'.skeleton = s.skeleton)
    ∧ (∀ (s : Sled) (v : Nat) (c : Rgb) (s' : Sled),
        (s.set_vertex v c).state? = some s' → s'.skeleton = s.skeleton) := by
  refine ⟨?_, ?_, ?_, set_skeleton, set_range_skeleton, set_segments_skeleton,
    modulate_segments_skeleton, set_vertex_skeleton⟩
  · intro config
    simp only [Sled.build]
    exact buildLedList_length _ _ (by simp)
  · intro config j led h
    simp only [Sled.build] at h
    exact buildLedList_index _ _ j led h
  · intro config i hi
    simp only [Sled.build, lineSegmentEndpointIndices]
    rw [endpointIndicesGo_getElem? _ 0 i (by simpa using hi)]
    simp

/-- Witness for `construction_invariants`, discharging every hypothesis on
the concrete layouts `cfg9` and `cfgA`. -/
theorem construction_invariants_witness :
    Led.index { color := black, position := none, index := 0, segment := 0 } = 0
    ∧ (Sled.build cfgA).line_segment_endpoint_indices[0]? =
        some (((cfgA.line_segments.map LineSegment.num_leds).take 0).sum,
          ((cfgA.line_segments.map LineSegment.num_leds).take 0).sum +
            (cfgA.line_segments.map LineSegment.num_leds).getD 0 0)
    ∧ sled9Red.skeleton = sled9.skeleton
    ∧ sled9Red.skeleton = sled9.skeleton
    ∧ sled9Red.skeleton = sled9.skeleton
    ∧ sled9Red.skeleton = sled9.skeleton
    ∧ sled9Red.skeleton = sled9.skeleton :=
  ⟨construction_invariants.2.1 cfg9 0 _ (by with_unfolding_all decide),
   construction_invariants.2.2.1 cfgA 0 (by with_unfolding_all decide),
   construction_invariants.2.2.2.1 sled9 0 red sled9Red (by with_unfolding_all decide),
   construction_invariants.2.2.2.2.1 sled9 0 1 red sled9Red (by with_unfolding_all decide),
   construction_invariants.2.2.2.2.2.1 sled9 0 0 red sled9Red (by with_unfolding_all decide),
   construction_invariants.2.2.2.2.2.2.1 sled9 0 0 (fun _ => red) sled9Red
     (by with_unfolding_all decide),
   construction_invariants.2.2.2.2.2.2.2 sled9 0 red sled9Red (by with_unfolding_all decide)⟩

/-- Claim C9, amended: for a segment with LED count greater than 1, LED `i`
sits at the linear interpolation of `[start, end]` at `t = i / (count - 1)`,
a finite well-defined position; but for a segment whose count is exactly 1
the source computes `alpha = 0.0 / 0.0` — NaN — and the single LED's
position is that non-finite value, not the segment's start point. -/
theorem led_position_interpolation :
    (∀ (seg : LineSegment) (si off size i : Nat), 1 < size → i < size →
      (segmentLeds seg si off size)[i]? =
        some { color := black
               position := some (seg.start.lerp seg.end_ ((i : ℚ) / ((size - 1 : Nat) : ℚ)))
               index := off + i
               segment := si })
    ∧ (∀ (seg : LineSegment) (si off : Nat),
        segmentLeds seg si off 1 =
          [{ color := black, position := none, index := off, segment := si }]) := by
  constructor
  · intro seg si off size i hsize hi
    rw [segmentLeds_getElem? seg si off size i hi]
    have hne : ((size - 1 : Nat) : ℚ) ≠ 0 :=
      Nat.cast_ne_zero.mpr (by omega)
    rw [fdiv, if_neg hne]
    rfl
  · intro seg si off
    simp [segmentLeds, List.range_succ, fdiv, Nat.add]

/-- Witness for `led_position_interpolation`: LED 2 of the ten-LED segment
`segA` sits at `lerp((0,0), (10,0), 2/9)`. -/
theorem led_position_interpolation_witness :
    (segmentLeds segA 0 0 10)[2]? =
      some { color := black
             position := some (segA.start.lerp segA.end_ ((2 : ℚ) / ((10 - 1 : Nat) : ℚ)))
             index := 0 + 2
             segment := 0 } :=
  led_position_interpolation.1 segA 0 0 10 2 (by decide) (by decide)

/-- Claim C9, counterexample: the one-LED segment of `cfg9` yields a single
LED whose position is the non-finite marker `none` (the `0.0/0.0` NaN), not
the finite start point `(0, 0)` the claim promises. -/
theorem single_led_position_nan :
    sled9.leds.map Led.position = [none]
    ∧ seg9.num_leds = 1
    ∧ seg9.start = ⟨0, 0⟩ := by
  refine ⟨?_, ?_, ?_⟩ <;> with_unfolding_all decide

/-- Claim C10: for any constructed layout and any `a ≤ b` with both `a` and
`b` valid segment indices, `get_segments`, `set_segments` and
`modulate_segments` touch exactly the contiguous LED interval
`[endpoint_indices[a].0, endpoint_indices[b].1)` — the LEDs of segments `a`
through `b` inclusive (the interval runs to the end of segment `b`, the sum
of the first `b + 1` counts) — and no LED outside that interval is read or
mutated. -/
theorem segment_range_inclusive :
    ∀ (config : Config) (a b : Nat) (c : Rgb) (rule : Led → Rgb),
      a ≤ b → b < config.line_segments.length →
      let s := Sled.build config
      let lo := (s.line_segment_endpoint_indices.getD a (0, 0)).1
      let hi := (s.line_segment_endpoint_indices.getD b (0, 0)).2
      s.get_segments a b = some ((s.leds.drop lo).take (hi - lo))
      ∧ s.set_segments a b c =
          .ok { s with leds := applyColorsGo (fun _ => c) lo hi 0 s.leds }
      ∧ s.modulate_segments a b rule =
          .ok { s with leds := applyColorsGo rule lo hi 0 s.leds }
      ∧ (∀ j, ¬(lo ≤ j ∧ j < hi) →
          (applyColorsGo rule lo hi 0 s.leds)[j]? = s.leds[j]?)
      ∧ lo = ((config.line_segments.map LineSegment.num_leds).take a).sum
      ∧ hi = ((config.line_segments.map LineSegment.num_leds).take (b + 1)).sum := by
  intro config a b c rule hab hb
  intro s lo hi
  have hcnt : (config.line_segments.map LineSegment.num_leds).length =
      config.line_segments.length := by simp
  have hta : s.line_segment_endpoint_indices[a]? =
      some (((config.line_segments.map LineSegment.num_leds).take a).sum,
        ((config.line_segments.map LineSegment.num_leds).take a).sum +
          (config.line_segments.map LineSegment.num_leds).getD a 0) := by
    show (lineSegmentEndpointIndices _)[a]? = _
    rw [lineSegmentEndpointIndices, endpointIndicesGo_getElem? _ 0 a (by omega)]
    simp
  have htb : s.line_segment_endpoint_indices[b]? =
      some (((config.line_segments.map LineSegment.num_leds).take b).sum,
        ((config.line_segments.map LineSegment.num_leds).take b).sum +
          (config.line_segments.map LineSegment.num_leds).getD b 0) := by
    show (lineSegmentEndpointIndices _)[b]? = _
    rw [lineSegmentEndpointIndices, endpointIndicesGo_getElem? _ 0 b (by omega)]
    simp
  have htlen : s.line_segment_endpoint_indices.length = config.line_segments.length := by
    show (lineSegmentEndpointIndices _).length = _
    rw [lineSegmentEndpointIndices, endpointIndicesGo_length]
    exact hcnt
  have hlo : lo = ((config.line_segments.map LineSegment.num_leds).take a).sum := by
    show (s.line_segment_endpoint_indices.getD a (0, 0)).1 = _
    rw [List.getD_eq_getElem?_getD, hta]
    rfl
  have hhi : hi = ((config.line_segments.map LineSegment.num_leds).take (b + 1)).sum := by
    show (s.line_segment_endpoint_indices.getD b (0, 0)).2 = _
    rw [List.getD_eq_getElem?_getD, htb]
    rw [take_sum_succ _ b (by omega)]
    rfl
  have hleds : s.leds.length = (config.line_segments.map LineSegment.num_leds).sum := by
    show (buildLedList _ _).length = _
    exact buildLedList_length _ _ (by simp)
  have hlohi : lo ≤ hi := by
    rw [hlo, hhi]
    exact take_sum_mono _ (by omega)
  have hhile : hi ≤ s.leds.length := by
    rw [hhi, hleds]
    exact take_sum_le_sum _ _
  have hD : ((config.line_segments.map LineSegment.num_leds).take b).sum +
      (config.line_segments.map LineSegment.num_leds).getD b 0 = hi := by
    rw [hhi, take_sum_succ _ b (by omega)]
  refine ⟨?_, ?_, ?_, ?_, hlo, hhi⟩
  · rw [Sled.get_segments, if_neg (by omega), hta, htb]
    dsimp only
    rw [hD, ← hlo]
    rw [sliceIdx, if_pos ⟨hlohi, hhile⟩]
  · rw [Sled.set_segments, if_neg (by omega), htb]
    dsimp only
    rw [hD]
    rw [if_pos ⟨hlohi, hhile⟩]
  · rw [Sled.modulate_segments, if_neg (by omega), htb]
    dsimp only
    rw [hD]
    rw [if_pos ⟨hlohi, hhile⟩]
  · intro j hj
    rw [applyColorsGo_getElem?]
    rcases hx : s.leds[j]? with _ | led
    · rfl
    · simp only [Option.map_some']
      rw [if_neg (by omega)]

/-- Witness for `segment_range_inclusive` on the two-segment layout `cfgC`
with the full range `0..1`. -/
theorem segment_range_inclusive_witness :
    let s := Sled.build cfgC
    let lo := (s.line_segment_endpoint_indices.getD 0 (0, 0)).1
    let hi := (s.line_segment_endpoint_indices.getD 1 (0, 0)).2
    s.get_segments 0 1 = some ((s.leds.drop lo).take (hi - lo))
    ∧ s.set_segments 0 1 red =
        .ok { s with leds := applyColorsGo (fun _ => red) lo hi 0 s.leds }
    ∧ s.modulate_segments 0 1 (fun _ => red) =
        .ok { s with leds := applyColorsGo (fun _ => red) lo hi 0 s.leds }
    ∧ (∀ j, ¬(lo ≤ j ∧ j < hi) →
        (applyColorsGo (fun _ => red) lo hi 0 s.leds)[j]? = s.leds[j]?)
    ∧ lo = ((cfgC.line_segments.map LineSegment.num_leds).take 0).sum
    ∧ hi = ((cfgC.line_segments.map LineSegment.num_leds).take 2).sum :=
  segment_range_inclusive cfgC 0 1 red (fun _ => red) (by decide)
    (by with_unfolding_all decide)

end Slc
